import Mathlib

/-!
Verification of the Vector Search Index core of `Embedding01/04_semantic_search.py`.

The embedding models the numpy/pandas pipeline with exact real arithmetic
(`ℝ` standing for float32 values), lists standing for 1-d arrays and lists of
rows standing for 2-d arrays.  Fallible numpy/pandas operations return
`Except PyError`; `PyError.valueError` and `PyError.indexError` are the
exception classes numpy actually raises, while `PyError.dimensionMismatchError`
and `PyError.validationError` are the error names the specification posits —
no code in the repository defines or raises them.

`np.argsort` (ascending) is modelled as a stable sort of the index list
`[0, …, N-1]` by the lexicographic key (score, index); numpy's default kind
leaves tie order unspecified, but its small-array insertion sort agrees with
this stable model on every concrete instance used below.  The source then
reverses the result (`[::-1]`) and slices the first `top_k` entries.
-/

namespace SemanticSearch

/-- Row of the reviews DataFrame as used by `semantic_search`: the `Score`
column (an integer rating) and the `content` column.  Other CSV columns
(e.g. `Id`) are never read by the search pipeline and are omitted. -/
structure Record where
  score : Int
  content : String
deriving DecidableEq, Inhabited, Repr

/-- Row of the DataFrame returned by `semantic_search`
(`results[["Score", "similarity", "content"]]`). -/
structure SearchResult where
  score : Int
  similarity : ℝ
  content : String
deriving Inhabited

/-- Exception classes.  `valueError` and `indexError` model Python/numpy
`ValueError` and `IndexError`.  `dimensionMismatchError` and
`validationError` are the names §7 of the spec posits; the source never
defines or raises them, they exist here only so the spec's claims about them
can be stated. -/
inductive PyError where
  | valueError
  | indexError
  | dimensionMismatchError
  | validationError
deriving DecidableEq, Repr

/-- Dot product of two equal-length vectors (`v @ w` for 1-d arrays). -/
def dot (v w : List ℝ) : ℝ := (List.zipWith (· * ·) v w).sum

/-- Sum of squares of a vector's entries. -/
def sumSq (v : List ℝ) : ℝ := dot v v

/-- Model of `np.linalg.norm(v)`: the L2 norm, the square root of the sum of
squares (line 94 / line 129 of `04_semantic_search.py`). -/
noncomputable def np_linalg_norm (v : List ℝ) : ℝ := Real.sqrt (sumSq v)

/-- The epsilon added to every normalization denominator in the source
(`norms + 1e-10`, lines 96 and 129). -/
def eps : ℝ := 1e-10

/-- Model of `v / (np.linalg.norm(v) + 1e-10)`: the epsilon-guarded L2
normalization applied to the query vector (line 129) and to each matrix row
(line 96). -/
noncomputable def l2normalize (v : List ℝ) : List ℝ :=
  v.map (fun x => x / (np_linalg_norm v + eps))

/-- Model of `normalize_matrix` (lines 78–96): row-wise epsilon-guarded L2
normalization, `matrix / (norms + 1e-10)` with `norms` the per-row L2 norms. -/
noncomputable def normalize_matrix (m : List (List ℝ)) : List (List ℝ) :=
  m.map l2normalize

/-- Model of the `np.stack(vectors)` call in `load_data` (line 70):
stacking zero arrays or arrays of differing shapes raises `ValueError`. -/
def np_stack (vectors : List (List ℝ)) : Except PyError (List (List ℝ)) :=
  match vectors with
  | [] => .error .valueError
  | v :: rest =>
      if rest.all (fun w => w.length == v.length) then .ok (v :: rest)
      else .error .valueError

/-- Model of `scores = norm_matrix @ query_norm` (line 134): one dot product
per row, against the normalized query. -/
noncomputable def searchScores (norm_matrix : List (List ℝ)) (query_vec : List ℝ) : List ℝ :=
  norm_matrix.map (fun row => dot row (l2normalize query_vec))

/-- Model of the soft-exclusion mask (lines 138–140):
`mask = df["Score"].values != score_filter; scores[mask] = -1.0`.
Rows whose `Score` differs from the filter get similarity −1.0. -/
def maskScores (df : List Record) (scores : List ℝ) (f : Int) : List ℝ :=
  List.zipWith (fun r s => if r.score = f then s else (-1 : ℝ)) df scores

/-- Sort key of the stable ascending argsort model: index `i` comes before
index `j` iff `scores[i] < scores[j]`, ties broken by index. -/
def keyLe (s : List ℝ) (i j : Nat) : Prop :=
  s.getD i 0 < s.getD j 0 ∨ (s.getD i 0 = s.getD j 0 ∧ i ≤ j)

noncomputable instance (s : List ℝ) : DecidableRel (keyLe s) := fun i j =>
  inferInstanceAs (Decidable (s.getD i 0 < s.getD j 0 ∨ (s.getD i 0 = s.getD j 0 ∧ i ≤ j)))

instance (s : List ℝ) : IsTotal Nat (keyLe s) where
  total i j := by
    rcases lt_trichotomy (s.getD i 0) (s.getD j 0) with h | h | h
    · exact Or.inl (Or.inl h)
    · rcases Nat.le_total i j with hij | hij
      · exact Or.inl (Or.inr ⟨h, hij⟩)
      · exact Or.inr (Or.inr ⟨h.symm, hij⟩)
    · exact Or.inr (Or.inl h)

instance (s : List ℝ) : IsTrans Nat (keyLe s) where
  trans i j k hij hjk := by
    rcases hij with h₁ | ⟨e₁, l₁⟩
    · rcases hjk with h₂ | ⟨e₂, _⟩
      · exact Or.inl (h₁.trans h₂)
      · exact Or.inl (e₂ ▸ h₁)
    · rcases hjk with h₂ | ⟨e₂, l₂⟩
      · exact Or.inl (e₁ ▸ h₂)
      · exact Or.inr ⟨e₁.trans e₂, l₁.trans l₂⟩

/-- Model of `np.argsort(scores)` (line 144): the permutation of
`[0, …, N-1]` sorted ascending by score, ties in index order (stable model;
see the file header). -/
noncomputable def np_argsort (s : List ℝ) : List Nat :=
  List.insertionSort (keyLe s) (List.range s.length)

/-- Model of `np.argsort(scores)[::-1]` (line 144): indices in descending
score order. -/
noncomputable def searchOrder (s : List ℝ) : List Nat :=
  (np_argsort s).reverse

/-- Model of `top_indices = np.argsort(scores)[::-1][:top_k]` (line 144). -/
noncomputable def topIndices (s : List ℝ) (top_k : Nat) : List Nat :=
  (searchOrder s).take top_k

/-- Model of steps E–F of `semantic_search` (lines 144–150): take the top-K
indices, look the rows up in `df` (`df.iloc[top_indices]`, raising
`IndexError` on an out-of-range label) and attach the similarity column. -/
noncomputable def finalize (df : List Record) (scores : List ℝ) (top_k : Nat) :
    Except PyError (List SearchResult) :=
  let idx := topIndices scores top_k
  if idx.all (fun i => decide (i < df.length)) then
    .ok (idx.map (fun i =>
      { score := (df.getD i default).score
        similarity := scores.getD i 0
        content := (df.getD i default).content }))
  else .error .indexError

/-- Model of `semantic_search` (lines 101–150) from the point where the query
vector is available (the `embed` network call of step A is the external
collaborator of §6 of the spec).  Step B normalizes the query, step C is the
matrix–vector product (numpy raises `ValueError` when the matrix width and
the query dimension disagree), step D the optional soft-exclusion mask
(a boolean mask whose length must match, else `IndexError`), steps E–F the
descending selection and result assembly. -/
noncomputable def semantic_search (df : List Record) (norm_matrix : List (List ℝ))
    (query_vec : List ℝ) (top_k : Nat) (score_filter : Option Int) :
    Except PyError (List SearchResult) :=
  if norm_matrix.all (fun row => row.length == query_vec.length) then
    let scores := searchScores norm_matrix query_vec
    match score_filter with
    | some f =>
        if df.length = scores.length then finalize df (maskScores df scores f) top_k
        else .error .indexError
    | none => finalize df scores top_k
  else .error .valueError

/-- Heap of allocated matrices, for the frame claim about `normalize_matrix`:
numpy's `/` operator allocates a fresh array (the source uses no in-place
operator such as `/=`), so the operation is modelled as reading a matrix slot
and appending a new slot. -/
abbrev Heap := List (List (List ℝ))

/-- Matrix stored in slot `i` of the heap. -/
def heapGet (h : Heap) (i : Nat) : List (List ℝ) := h.getD i []

/-- Model of executing `normalize_matrix` against the heap: read the matrix
in slot `i`, allocate the normalized copy in a fresh slot, return the heap
and the fresh slot's address. -/
noncomputable def normalize_matrix_prog (h : Heap) (i : Nat) : Heap × Nat :=
  (h ++ [normalize_matrix (heapGet h i)], h.length)

/-! ### Basic arithmetic lemmas -/

theorem dot_cons (a b : ℝ) (v w : List ℝ) : dot (a :: v) (b :: w) = a * b + dot v w := by
  simp [dot]

theorem dot_nil_left (w : List ℝ) : dot [] w = 0 := by simp [dot]

theorem sumSq_nonneg (v : List ℝ) : 0 ≤ sumSq v := by
  induction v with
  | nil => simp [sumSq, dot]
  | cons a v ih =>
      have : sumSq (a :: v) = a * a + sumSq v := dot_cons a a v v
      rw [this]
      nlinarith [sq_nonneg a]

theorem eps_pos : (0 : ℝ) < eps := by norm_num [eps]

theorem np_linalg_norm_nonneg (v : List ℝ) : 0 ≤ np_linalg_norm v :=
  Real.sqrt_nonneg _

theorem denom_pos (v : List ℝ) : 0 < np_linalg_norm v + eps :=
  add_pos_of_nonneg_of_pos (np_linalg_norm_nonneg v) eps_pos

theorem length_l2normalize (v : List ℝ) : (l2normalize v).length = v.length := by
  simp [l2normalize]

theorem length_normalize_matrix (m : List (List ℝ)) :
    (normalize_matrix m).length = m.length := by
  simp [normalize_matrix]

theorem dot_eq_sum (v w : List ℝ) (h : w.length = v.length) :
    dot v w = ∑ i ∈ Finset.range v.length, v.getD i 0 * w.getD i 0 := by
  induction v generalizing w with
  | nil => simp [dot]
  | cons a v ih =>
      cases w with
      | nil => simp at h
      | cons b w =>
          have hw : w.length = v.length := by simpa using h
          rw [dot_cons, ih w hw, List.length_cons, Finset.sum_range_succ']
          simp [add_comm]

theorem sumSq_eq_sum (v : List ℝ) :
    sumSq v = ∑ i ∈ Finset.range v.length, v.getD i 0 ^ 2 := by
  rw [sumSq, dot_eq_sum v v rfl]
  exact Finset.sum_congr rfl fun i _ => (sq (v.getD i 0)).symm

theorem abs_dot_le (v w : List ℝ) (h : w.length = v.length) :
    |dot v w| ≤ np_linalg_norm v * np_linalg_norm w := by
  have hv : np_linalg_norm v = Real.sqrt (∑ i ∈ Finset.range v.length, v.getD i 0 ^ 2) := by
    rw [np_linalg_norm, sumSq_eq_sum]
  have hw : np_linalg_norm w = Real.sqrt (∑ i ∈ Finset.range v.length, w.getD i 0 ^ 2) := by
    rw [np_linalg_norm, sumSq_eq_sum, h]
  have hub := Real.sum_mul_le_sqrt_mul_sqrt (Finset.range v.length)
    (fun i => v.getD i 0) (fun i => w.getD i 0)
  have hlb := Real.sum_mul_le_sqrt_mul_sqrt (Finset.range v.length)
    (fun i => v.getD i 0) (fun i => -(w.getD i 0))
  rw [dot_eq_sum v w h, hv, hw]
  rw [abs_le]
  constructor
  · have e1 : ∑ i ∈ Finset.range v.length, v.getD i 0 * -(w.getD i 0)
        = -∑ i ∈ Finset.range v.length, v.getD i 0 * w.getD i 0 := by
      rw [← Finset.sum_neg_distrib]
      exact Finset.sum_congr rfl fun i _ => by ring
    have e2 : ∀ i, (-(w.getD i 0)) ^ 2 = w.getD i 0 ^ 2 := fun i => by ring
    simp only [e1, e2] at hlb
    linarith
  · exact hub

theorem sumSq_map_div (v : List ℝ) (c : ℝ) :
    sumSq (v.map (fun x => x / c)) = sumSq v / c ^ 2 := by
  induction v with
  | nil => simp [sumSq, dot]
  | cons a v ih =>
      have h1 : sumSq ((a :: v).map (fun x => x / c))
          = (a / c) * (a / c) + sumSq (v.map (fun x => x / c)) := by
        simpa using dot_cons (a / c) (a / c) (v.map (fun x => x / c)) (v.map (fun x => x / c))
      have h2 : sumSq (a :: v) = a * a + sumSq v := dot_cons a a v v
      rw [h1, ih, h2]
      ring

theorem np_linalg_norm_l2normalize (v : List ℝ) :
    np_linalg_norm (l2normalize v) = np_linalg_norm v / (np_linalg_norm v + eps) := by
  rw [l2normalize, np_linalg_norm, sumSq_map_div,
    Real.sqrt_div (sumSq_nonneg v), Real.sqrt_sq (denom_pos v).le]
  rfl

theorem norm_l2normalize_lt_one (v : List ℝ) : np_linalg_norm (l2normalize v) < 1 := by
  rw [np_linalg_norm_l2normalize]
  rw [div_lt_one (denom_pos v)]
  linarith [eps_pos]

theorem norm_l2normalize_nonneg (v : List ℝ) : 0 ≤ np_linalg_norm (l2normalize v) :=
  np_linalg_norm_nonneg _

/-- Unmasked similarity scores are strictly inside (−1, 1): both factors of
the Cauchy–Schwarz bound are the norm of an epsilon-normalized vector, hence
less than 1. -/
theorem abs_score_lt_one (v q : List ℝ) (h : v.length = q.length) :
    |dot (l2normalize v) (l2normalize q)| < 1 := by
  have hlen : (l2normalize q).length = (l2normalize v).length := by
    rw [length_l2normalize, length_l2normalize, h]
  have hcs := abs_dot_le (l2normalize v) (l2normalize q) hlen
  have h1 := norm_l2normalize_lt_one v
  have h2 := norm_l2normalize_lt_one q
  have h1n := norm_l2normalize_nonneg v
  have h2n := norm_l2normalize_nonneg q
  nlinarith

/-! ### Order and access lemmas -/

theorem np_argsort_perm (s : List ℝ) : (np_argsort s).Perm (List.range s.length) :=
  List.perm_insertionSort _ _

theorem searchOrder_perm (s : List ℝ) : (searchOrder s).Perm (List.range s.length) :=
  (List.reverse_perm _).trans (np_argsort_perm s)

theorem searchOrder_length (s : List ℝ) : (searchOrder s).length = s.length := by
  rw [(searchOrder_perm s).length_eq, List.length_range]

theorem mem_searchOrder_iff (s : List ℝ) (i : Nat) : i ∈ searchOrder s ↔ i < s.length := by
  rw [(searchOrder_perm s).mem_iff, List.mem_range]

theorem searchOrder_nodup (s : List ℝ) : (searchOrder s).Nodup :=
  (searchOrder_perm s).symm.nodup (List.nodup_range s.length)

theorem searchOrder_pairwise (s : List ℝ) :
    (searchOrder s).Pairwise (fun a b => keyLe s b a) := by
  rw [searchOrder, List.pairwise_reverse]
  exact List.sorted_insertionSort (keyLe s) (List.range s.length)

theorem keyLe_le {s : List ℝ} {i j : Nat} (h : keyLe s i j) : s.getD i 0 ≤ s.getD j 0 := by
  rcases h with h | ⟨h, _⟩
  · exact h.le
  · exact h.le

theorem searchScores_length (nm : List (List ℝ)) (q : List ℝ) :
    (searchScores nm q).length = nm.length := by
  simp [searchScores]

theorem searchScores_getD (nm : List (List ℝ)) (q : List ℝ) (i : Nat) (h : i < nm.length) :
    (searchScores nm q).getD i 0 = dot (nm.getD i []) (l2normalize q) := by
  have h' : i < (searchScores nm q).length := by rw [searchScores_length]; exact h
  rw [List.getD_eq_getElem _ _ h']
  simp only [searchScores, List.getElem_map]
  rw [← List.getD_eq_getElem nm [] h]

theorem maskScores_length (df : List Record) (scores : List ℝ) (f : Int)
    (h : df.length = scores.length) : (maskScores df scores f).length = scores.length := by
  simp [maskScores, h]

theorem maskScores_getD (df : List Record) (scores : List ℝ) (f : Int) (i : Nat)
    (hdf : df.length = scores.length) (hi : i < scores.length) :
    (maskScores df scores f).getD i 0 =
      if (df.getD i default).score = f then scores.getD i 0 else -1 := by
  have h' : i < (maskScores df scores f).length := by
    rw [maskScores_length df scores f hdf]; exact hi
  have hidf : i < df.length := by rw [hdf]; exact hi
  rw [List.getD_eq_getElem _ _ h']
  simp only [maskScores, List.getElem_zipWith]
  rw [← List.getD_eq_getElem df default hidf, ← List.getD_eq_getElem scores 0 hi]

theorem normalize_matrix_getD (raw : List (List ℝ)) (i : Nat) (h : i < raw.length) :
    (normalize_matrix raw).getD i [] = l2normalize (raw.getD i []) := by
  have h' : i < (normalize_matrix raw).length := by rw [length_normalize_matrix]; exact h
  rw [List.getD_eq_getElem _ _ h']
  simp only [normalize_matrix, List.getElem_map]
  rw [← List.getD_eq_getElem raw [] h]

/-- On a built index (rows produced by `normalize_matrix`) whose row widths
match the query dimension, every raw similarity score is strictly inside
(−1, 1). -/
theorem searchScores_bounds (raw : List (List ℝ)) (q : List ℝ)
    (hdim : ∀ row ∈ raw, row.length = q.length) (i : Nat) (hi : i < raw.length) :
    -1 < (searchScores (normalize_matrix raw) q).getD i 0 ∧
      (searchScores (normalize_matrix raw) q).getD i 0 < 1 := by
  have hlen : i < (normalize_matrix raw).length := by rw [length_normalize_matrix]; exact hi
  rw [searchScores_getD _ _ _ hlen, normalize_matrix_getD raw i hi]
  have hrow : raw.getD i [] ∈ raw := by
    rw [List.getD_eq_getElem raw [] hi]
    exact List.getElem_mem hi
  have habs := abs_score_lt_one (raw.getD i []) q (hdim _ hrow)
  rw [abs_lt] at habs
  exact habs

/-! ### Selection lemmas -/

theorem topIndices_length (s : List ℝ) (k : Nat) :
    (topIndices s k).length = min k s.length := by
  rw [topIndices, List.length_take, searchOrder_length]

theorem mem_topIndices_lt (s : List ℝ) (k : Nat) {i : Nat} (h : i ∈ topIndices s k) :
    i < s.length := by
  rw [← mem_searchOrder_iff]
  exact List.mem_of_mem_take h

theorem dim_guard (nm : List (List ℝ)) (q : List ℝ)
    (h : ∀ row ∈ nm, row.length = q.length) :
    nm.all (fun row => row.length == q.length) = true := by
  rw [List.all_eq_true]
  intro row hrow
  exact beq_iff_eq.mpr (h row hrow)

theorem finalize_ok (df : List Record) (scores : List ℝ) (k : Nat)
    (hidx : ∀ i ∈ topIndices scores k, i < df.length) :
    finalize df scores k = .ok ((topIndices scores k).map (fun i =>
      { score := (df.getD i default).score
        similarity := scores.getD i 0
        content := (df.getD i default).content })) := by
  simp only [finalize]
  rw [if_pos]
  rw [List.all_eq_true]
  intro i hi
  exact decide_eq_true (hidx i hi)

theorem semantic_search_none (df : List Record) (nm : List (List ℝ)) (q : List ℝ) (k : Nat)
    (hdim : ∀ row ∈ nm, row.length = q.length) :
    semantic_search df nm q k none = finalize df (searchScores nm q) k := by
  simp only [semantic_search]
  rw [if_pos (dim_guard nm q hdim)]

theorem semantic_search_some (df : List Record) (nm : List (List ℝ)) (q : List ℝ) (k : Nat)
    (f : Int) (hdim : ∀ row ∈ nm, row.length = q.length) (hlen : df.length = nm.length) :
    semantic_search df nm q k (some f) =
      finalize df (maskScores df (searchScores nm q) f) k := by
  simp only [semantic_search]
  rw [if_pos (dim_guard nm q hdim)]
  rw [if_pos]
  rw [searchScores_length]
  exact hlen

/-- In the descending selection, the first `k` indices all carry a score
strictly above −1 as soon as at least `k` indices do: an index scoring −1 in
the first `k` positions would push every above-−1 index into the first
`k − 1` positions. -/
theorem take_pos_of_count (s : List ℝ) (k : Nat)
    (hlb : ∀ i, i < s.length → -1 ≤ s.getD i 0)
    (hk : k ≤ (List.range s.length).countP (fun i => decide (-1 < s.getD i 0)))
    {j : Nat} (hj : j ∈ (searchOrder s).take k) : -1 < s.getD j 0 := by
  by_contra hneg
  have hjlt : j < s.length := mem_topIndices_lt s k hj
  have hjle : s.getD j 0 = -1 := le_antisymm (not_lt.mp hneg) (hlb j hjlt)
  obtain ⟨p, hp, hpe⟩ := List.getElem_of_mem hj
  have hplen : p < ((searchOrder s).take k).length := hp
  have hpk : p < k := lt_of_lt_of_le hplen (by rw [List.length_take]; exact min_le_left _ _)
  have hpo : p < (searchOrder s).length :=
    lt_of_lt_of_le hplen (by rw [List.length_take]; exact min_le_right _ _)
  rw [List.getElem_take] at hpe
  set P : Nat → Bool := fun i => decide (-1 < s.getD i 0) with hP
  have hPj : P j = false := by
    rw [hP]
    simp only [decide_eq_false_iff_not]
    exact hneg
  have hcount : (List.range s.length).countP P = (searchOrder s).countP P :=
    ((searchOrder_perm s).countP_eq P).symm
  have hsplit : (searchOrder s).countP P =
      ((searchOrder s).take (p + 1)).countP P + ((searchOrder s).drop (p + 1)).countP P := by
    rw [← List.countP_append, List.take_append_drop]
  have hA : ((searchOrder s).take (p + 1)).countP P ≤ p := by
    rw [List.take_succ]
    rw [List.countP_append]
    have h1 : ((searchOrder s).take p).countP P ≤ p := by
      calc ((searchOrder s).take p).countP P ≤ ((searchOrder s).take p).length :=
            List.countP_le_length P
        _ ≤ p := by rw [List.length_take]; exact min_le_left _ _
    have h2 : ((searchOrder s)[p]?.toList).countP P = 0 := by
      rw [List.getElem?_eq_getElem hpo]
      show List.countP P [(searchOrder s)[p]] = 0
      rw [hpe, List.countP_singleton, hPj]
      simp
    omega
  have hB : ((searchOrder s).drop (p + 1)).countP P = 0 := by
    rw [List.countP_eq_zero]
    intro x hx
    obtain ⟨q, hq, hqe⟩ := List.getElem_of_mem hx
    have hqo : p + 1 + q < (searchOrder s).length := by
      have := hq
      rw [List.length_drop] at this
      omega
    rw [List.getElem_drop] at hqe
    have hrel := (List.pairwise_iff_get.mp (searchOrder_pairwise s))
      ⟨p, hpo⟩ ⟨p + 1 + q, hqo⟩ (by simp; omega)
    simp only [List.get_eq_getElem] at hrel
    rw [hpe, hqe] at hrel
    have hxle : s.getD x 0 ≤ s.getD j 0 := keyLe_le hrel
    rw [hjle] at hxle
    intro hPx
    rw [hP, decide_eq_true_eq] at hPx
    linarith
  have : (List.range s.length).countP P ≤ p := by
    rw [hcount, hsplit, hB]
    omega
  omega

/-- Counting over index positions agrees with counting over the DataFrame
rows. -/
theorem countP_range_getD (df : List Record) (f : Int) :
    (List.range df.length).countP (fun i => decide ((df.getD i default).score = f))
      = df.countP (fun r => decide (r.score = f)) := by
  induction df with
  | nil => simp
  | cons r df ih =>
      rw [List.length_cons, List.range_succ_eq_map, List.countP_cons, List.countP_map]
      rw [List.countP_cons]
      have hcg : List.countP
          ((fun i => decide (((r :: df).getD i default).score = f)) ∘ Nat.succ)
          (List.range df.length)
          = List.countP (fun i => decide ((df.getD i default).score = f))
            (List.range df.length) := by
        refine List.countP_congr fun i _ => ?_
        simp [Function.comp, List.getD_cons_succ]
      rw [hcg, ih]
      simp [List.getD_cons_zero]

/-- Characterization of the selection stage when the scores list is as long
as the DataFrame: the call succeeds, returns `min k N` rows, each row is
built from a top index, and the similarity column is non-increasing. -/
theorem finalize_spec (df : List Record) (fs : List ℝ) (k : Nat)
    (hN : fs.length = df.length) :
    ∃ res, finalize df fs k = .ok res ∧
      res.length = min k fs.length ∧
      (∀ r ∈ res, ∃ i, i ∈ topIndices fs k ∧ r.similarity = fs.getD i 0 ∧
          r.score = (df.getD i default).score) ∧
      (res.map (fun r => r.similarity)).Pairwise (fun a b => b ≤ a) := by
  have hidx : ∀ i ∈ topIndices fs k, i < df.length := fun i hi =>
    hN ▸ mem_topIndices_lt fs k hi
  refine ⟨_, finalize_ok df fs k hidx, ?_, ?_, ?_⟩
  · rw [List.length_map, topIndices_length]
  · intro r hr
    rw [List.mem_map] at hr
    obtain ⟨i, hi, rfl⟩ := hr
    exact ⟨i, hi, rfl, rfl⟩
  · rw [List.map_map]
    rw [show ((fun r : SearchResult => r.similarity) ∘ (fun i =>
        ({ score := (df.getD i default).score
           similarity := fs.getD i 0
           content := (df.getD i default).content } : SearchResult)))
      = fun i => fs.getD i 0 from rfl]
    rw [List.pairwise_map]
    refine List.Pairwise.imp ?_
      (List.Pairwise.sublist (List.take_sublist k _) (searchOrder_pairwise fs))
    intro a b hab
    exact keyLe_le hab

/-- Every raw score entry, read with default 0, lies in [−1, 1] on a built
index whose rows match the query dimension. -/
theorem searchScores_getD_in_Icc (raw : List (List ℝ)) (q : List ℝ)
    (hdim : ∀ row ∈ raw, row.length = q.length) (i : Nat) :
    -1 ≤ (searchScores (normalize_matrix raw) q).getD i 0 ∧
      (searchScores (normalize_matrix raw) q).getD i 0 ≤ 1 := by
  by_cases hi : i < raw.length
  · have h := searchScores_bounds raw q hdim i hi
    exact ⟨h.1.le, h.2.le⟩
  · rw [List.getD_eq_default]
    · norm_num
    · rw [searchScores_length, length_normalize_matrix]
      omega

/-- Every masked score entry, read with default 0, lies in [−1, 1]. -/
theorem maskScores_getD_in_Icc (df : List Record) (raw : List (List ℝ)) (q : List ℝ)
    (f : Int) (hdim : ∀ row ∈ raw, row.length = q.length)
    (hlen : df.length = raw.length) (i : Nat) :
    -1 ≤ (maskScores df (searchScores (normalize_matrix raw) q) f).getD i 0 ∧
      (maskScores df (searchScores (normalize_matrix raw) q) f).getD i 0 ≤ 1 := by
  have hdf : df.length = (searchScores (normalize_matrix raw) q).length := by
    rw [searchScores_length, length_normalize_matrix]; exact hlen
  by_cases hi : i < (searchScores (normalize_matrix raw) q).length
  · rw [maskScores_getD df _ f i hdf hi]
    by_cases hm : (df.getD i default).score = f
    · rw [if_pos hm]
      exact searchScores_getD_in_Icc raw q hdim i
    · rw [if_neg hm]
      norm_num
  · rw [List.getD_eq_default]
    · norm_num
    · rw [maskScores_length df _ f hdf]
      omega

/-! ### Claim theorems -/

/-- C8 (confirmed): epsilon-guarded normalization never divides by zero and
never fails — for every vector (any matrix row at build time, any query
vector at query time, including vectors of zero L2 norm) the denominator
`np.linalg.norm(v) + 1e-10` is strictly positive, and normalization is total:
it returns a row for every input row. -/
theorem normalization_never_divides_by_zero (m : List (List ℝ)) (v : List ℝ) :
    0 < np_linalg_norm v + eps ∧ (normalize_matrix m).length = m.length ∧
      (l2normalize v).length = v.length :=
  ⟨denom_pos v, length_normalize_matrix m, length_l2normalize v⟩

/-- C9 (confirmed): build-time normalization allocates a fresh matrix and
leaves every previously stored matrix — in particular the raw input matrix in
slot `i` — observably unchanged; the fresh slot holds exactly the row-wise
normalized copy of the input. -/
theorem normalize_matrix_does_not_mutate (h : Heap) (i p : Nat) (hp : p < h.length) :
    heapGet (normalize_matrix_prog h i).1 p = heapGet h p ∧
      heapGet (normalize_matrix_prog h i).1 (normalize_matrix_prog h i).2
        = normalize_matrix (heapGet h i) ∧
      h.length ≤ (normalize_matrix_prog h i).2 := by
  refine ⟨?_, ?_, le_refl _⟩
  · exact List.getD_append h _ [] p hp
  · show (h ++ [normalize_matrix (heapGet h i)]).getD h.length [] = _
    rw [List.getD_append_right h _ [] h.length (le_refl _)]
    simp

/-- Closed witness for C9 at a one-matrix heap. -/
theorem normalize_matrix_does_not_mutate_witness :
    (0 : Nat) < ([[[(1 : ℝ), 0]]] : Heap).length ∧
      (heapGet (normalize_matrix_prog [[[(1 : ℝ), 0]]] 0).1 0 = heapGet [[[(1 : ℝ), 0]]] 0 ∧
        heapGet (normalize_matrix_prog [[[(1 : ℝ), 0]]] 0).1
            (normalize_matrix_prog [[[(1 : ℝ), 0]]] 0).2
          = normalize_matrix (heapGet [[[(1 : ℝ), 0]]] 0) ∧
        ([[[(1 : ℝ), 0]]] : Heap).length ≤ (normalize_matrix_prog [[[(1 : ℝ), 0]]] 0).2) :=
  ⟨by norm_num, normalize_matrix_does_not_mutate [[[(1 : ℝ), 0]]] 0 0 (by norm_num)⟩

/-- C10 (confirmed): on a well-formed index, a query with `top_k = 0` returns
the empty result sequence and raises no error, with or without a filter: the
slice `[:0]` of the descending index order is empty. -/
theorem top_k_zero_returns_empty (df : List Record) (nm : List (List ℝ)) (q : List ℝ)
    (f? : Option Int) (hdim : ∀ row ∈ nm, row.length = q.length)
    (hlen : df.length = nm.length) :
    semantic_search df nm q 0 f? = .ok [] := by
  have hfin : ∀ scores : List ℝ, finalize df scores 0 = .ok [] := by
    intro scores
    rw [finalize_ok df scores 0]
    · rw [topIndices, List.take_zero, List.map_nil]
    · intro i hi
      rw [topIndices, List.take_zero] at hi
      cases hi
  cases f? with
  | none => rw [semantic_search_none df nm q 0 hdim, hfin]
  | some f => rw [semantic_search_some df nm q 0 f hdim hlen, hfin]

/-- Closed witness for C10: a two-record index queried with `top_k = 0`. -/
theorem top_k_zero_returns_empty_witness :
    ((∀ row ∈ ([[(1 : ℝ)], [2]] : List (List ℝ)), row.length = [(1 : ℝ)].length) ∧
        ([⟨5, "a"⟩, ⟨1, "b"⟩] : List Record).length = ([[(1 : ℝ)], [2]] : List (List ℝ)).length) ∧
      semantic_search [⟨5, "a"⟩, ⟨1, "b"⟩] [[(1 : ℝ)], [2]] [(1 : ℝ)] 0 (some 5) = .ok [] :=
  ⟨⟨by simp, by simp⟩,
    top_k_zero_returns_empty [⟨5, "a"⟩, ⟨1, "b"⟩] [[(1 : ℝ)], [2]] [(1 : ℝ)] (some 5)
      (by simp) (by simp)⟩

/-- C7 counterexample: stacking two vectors of lengths 1 and 2 at build time
raises numpy's `ValueError`, not the spec's `ValidationError` — the source
performs no explicit dimension validation and defines no `ValidationError`
class. -/
theorem build_error_is_valueError_not_validationError :
    np_stack [[(1 : ℝ)], [1, 2]] = .error .valueError ∧
      PyError.valueError ≠ PyError.validationError := by
  constructor
  · rfl
  · intro h
    cases h

/-- C7 (corrected): for every input collection containing two vectors of
different dimensions, Build (`load_data`'s `np.stack`) fails — but by raising
`ValueError` (numpy's shape error), not `ValidationError`. -/
theorem build_inconsistent_dims_raises_valueError (vectors : List (List ℝ))
    (v w : List ℝ) (hv : v ∈ vectors) (hw : w ∈ vectors)
    (hne : v.length ≠ w.length) :
    np_stack vectors = .error .valueError := by
  cases vectors with
  | nil => cases hv
  | cons a rest =>
      simp only [np_stack]
      rw [if_neg]
      intro hall
      rw [List.all_eq_true] at hall
      have hlen : ∀ u ∈ a :: rest, u.length = a.length := by
        intro u hu
        rcases List.mem_cons.mp hu with h | h
        · rw [h]
        · exact beq_iff_eq.mp (hall u h)
      exact hne ((hlen v hv).trans (hlen w hw).symm)

/-- Closed witness for the corrected C7. -/
theorem build_inconsistent_dims_raises_valueError_witness :
    (([(1 : ℝ), 1] ∈ ([[(1 : ℝ), 1], [2]] : List (List ℝ))) ∧
        ([(2 : ℝ)] ∈ ([[(1 : ℝ), 1], [2]] : List (List ℝ))) ∧
        ([(1 : ℝ), 1].length ≠ [(2 : ℝ)].length)) ∧
      np_stack [[(1 : ℝ), 1], [2]] = .error .valueError :=
  ⟨⟨by simp, by simp, by simp⟩,
    build_inconsistent_dims_raises_valueError [[(1 : ℝ), 1], [2]] [1, 1] [2]
      (by simp) (by simp) (by simp)⟩

/-- C3 counterexample: querying a built 2-dimensional index with a
3-dimensional vector fails with numpy's `ValueError` (shape mismatch in
`norm_matrix @ query_norm`), not with the spec's `DimensionMismatchError`,
which no code in the repository defines or raises. -/
theorem query_dim_mismatch_error_is_valueError :
    semantic_search [⟨5, "a"⟩] (normalize_matrix [[(1 : ℝ), 0]]) [1, 0, 0] 1 none
        = .error .valueError ∧
      PyError.valueError ≠ PyError.dimensionMismatchError := by
  constructor
  · simp only [semantic_search]
    rw [if_neg]
    intro hall
    rw [List.all_eq_true] at hall
    have hmem : l2normalize [(1 : ℝ), 0] ∈ normalize_matrix [[(1 : ℝ), 0]] := by
      simp [normalize_matrix]
    have := beq_iff_eq.mp (hall _ hmem)
    rw [length_l2normalize] at this
    simp at this
  · intro h
    cases h

/-- C3 (corrected): for every index and every query vector whose dimension
differs from the width of some stored row, `semantic_search` fails by raising
`ValueError` (numpy's matmul shape error) — not `DimensionMismatchError` —
and, the call being pure up to that failure, the stored records and
normalized matrix are unmodified. -/
theorem query_dim_mismatch_raises_valueError (df : List Record) (nm : List (List ℝ))
    (q : List ℝ) (k : Nat) (f? : Option Int) (row : List ℝ) (hrow : row ∈ nm)
    (hne : row.length ≠ q.length) :
    semantic_search df nm q k f? = .error .valueError := by
  simp only [semantic_search]
  rw [if_neg]
  intro hall
  rw [List.all_eq_true] at hall
  exact hne (beq_iff_eq.mp (hall row hrow))

/-- Closed witness for the corrected C3. -/
theorem query_dim_mismatch_raises_valueError_witness :
    (([(1 : ℝ), 2] ∈ ([[(1 : ℝ), 2]] : List (List ℝ))) ∧
        ([(1 : ℝ), 2].length ≠ [(1 : ℝ)].length)) ∧
      semantic_search [] [[(1 : ℝ), 2]] [(1 : ℝ)] 3 (some 2) = .error .valueError :=
  ⟨⟨by simp, by simp⟩,
    query_dim_mismatch_raises_valueError [] [[(1 : ℝ), 2]] [(1 : ℝ)] 3 (some 2)
      [1, 2] (by simp) (by simp)⟩

/-- C4 (corrected): on a well-formed index, the number of returned rows is
`min k N` whether or not a filter is supplied — the soft-exclusion mask never
shrinks the result below `min k N`; in particular `k > N` returns all `N`
rows and the empty index returns the empty sequence, without error. -/
theorem result_length_is_min_k_N (df : List Record) (nm : List (List ℝ)) (q : List ℝ)
    (k : Nat) (f? : Option Int) (hdim : ∀ row ∈ nm, row.length = q.length)
    (hlen : df.length = nm.length) :
    ∃ res, semantic_search df nm q k f? = .ok res ∧ res.length = min k nm.length := by
  cases f? with
  | none =>
      rw [semantic_search_none df nm q k hdim]
      have hN : (searchScores nm q).length = df.length := by rw [searchScores_length]; omega
      obtain ⟨res, hok, hl, -, -⟩ := finalize_spec df _ k hN
      exact ⟨res, hok, by rw [hl, searchScores_length]⟩
  | some f =>
      rw [semantic_search_some df nm q k f hdim hlen]
      have hdf : df.length = (searchScores nm q).length := by rw [searchScores_length]; omega
      have hN : (maskScores df (searchScores nm q) f).length = df.length := by
        rw [maskScores_length df _ f hdf]; omega
      obtain ⟨res, hok, hl, -, -⟩ := finalize_spec df _ k hN
      refine ⟨res, hok, ?_⟩
      rw [hl, maskScores_length df _ f hdf, searchScores_length]

/-- Closed witness for the corrected C4: the empty index answers any query
with the empty sequence (`min 5 0 = 0`), without error. -/
theorem result_length_is_min_k_N_witness :
    ((∀ row ∈ ([] : List (List ℝ)), row.length = ([] : List ℝ).length) ∧
        ([] : List Record).length = ([] : List (List ℝ)).length) ∧
      ∃ res, semantic_search [] [] [] 5 none = .ok res ∧ res.length = min 5 0 :=
  ⟨⟨by simp, by simp⟩, result_length_is_min_k_N [] [] [] 5 none (by simp) (by simp)⟩

/-- C5 (confirmed): on a built index and a dimension-correct query, with or
without a filter, the call succeeds, every returned similarity lies in
[−1, 1], and the returned similarity sequence is non-increasing. -/
theorem scores_in_range_and_sorted (df : List Record) (raw : List (List ℝ)) (q : List ℝ)
    (k : Nat) (f? : Option Int) (hdim : ∀ row ∈ raw, row.length = q.length)
    (hlen : df.length = raw.length) :
    ∃ res, semantic_search df (normalize_matrix raw) q k f? = .ok res ∧
      (∀ r ∈ res, -1 ≤ r.similarity ∧ r.similarity ≤ 1) ∧
      (res.map (fun r => r.similarity)).Pairwise (fun a b => b ≤ a) := by
  have hdim' : ∀ row ∈ normalize_matrix raw, row.length = q.length := by
    intro row hrow
    rw [normalize_matrix, List.mem_map] at hrow
    obtain ⟨r0, hr0, rfl⟩ := hrow
    rw [length_l2normalize]
    exact hdim r0 hr0
  cases f? with
  | none =>
      rw [semantic_search_none df _ q k hdim']
      have hN : (searchScores (normalize_matrix raw) q).length = df.length := by
        rw [searchScores_length, length_normalize_matrix]; omega
      obtain ⟨res, hok, -, hmem, hsort⟩ := finalize_spec df _ k hN
      refine ⟨res, hok, ?_, hsort⟩
      intro r hr
      obtain ⟨i, -, hsim, -⟩ := hmem r hr
      rw [hsim]
      exact searchScores_getD_in_Icc raw q hdim i
  | some f =>
      rw [semantic_search_some df _ q k f hdim' (by rw [length_normalize_matrix]; omega)]
      have hdf : df.length = (searchScores (normalize_matrix raw) q).length := by
        rw [searchScores_length, length_normalize_matrix]; omega
      have hN : (maskScores df (searchScores (normalize_matrix raw) q) f).length
          = df.length := by
        rw [maskScores_length df _ f hdf]
        omega
      obtain ⟨res, hok, -, hmem, hsort⟩ := finalize_spec df _ k hN
      refine ⟨res, hok, ?_, hsort⟩
      intro r hr
      obtain ⟨i, -, hsim, -⟩ := hmem r hr
      rw [hsim]
      exact maskScores_getD_in_Icc df raw q f hdim hlen i

/-- C1 (corrected): when a filter is supplied and at least `k` records match
it, every returned record satisfies the filter predicate.  (The original
claim, with no bound on `k`, is false: masked records stay in the candidate
list at score −1.0 and fill the tail of the top-K when fewer than `k`
records match.) -/
theorem filter_satisfied_when_enough_matches (df : List Record) (raw : List (List ℝ))
    (q : List ℝ) (k : Nat) (f : Int)
    (hdim : ∀ row ∈ raw, row.length = q.length)
    (hlen : df.length = raw.length)
    (hk : k ≤ df.countP (fun r => decide (r.score = f))) :
    ∃ res, semantic_search df (normalize_matrix raw) q k (some f) = .ok res ∧
      ∀ r ∈ res, r.score = f := by
  have hdim' : ∀ row ∈ normalize_matrix raw, row.length = q.length := by
    intro row hrow
    rw [normalize_matrix, List.mem_map] at hrow
    obtain ⟨r0, hr0, rfl⟩ := hrow
    rw [length_l2normalize]
    exact hdim r0 hr0
  have hscoreslen : (searchScores (normalize_matrix raw) q).length = raw.length := by
    rw [searchScores_length, length_normalize_matrix]
  have hdf : df.length = (searchScores (normalize_matrix raw) q).length := by omega
  have hfslen : (maskScores df (searchScores (normalize_matrix raw) q) f).length
      = df.length := by
    rw [maskScores_length df _ f hdf]
    omega
  rw [semantic_search_some df _ q k f hdim' (by rw [length_normalize_matrix]; omega)]
  obtain ⟨res, hok, -, hmem, -⟩ :=
    finalize_spec df (maskScores df (searchScores (normalize_matrix raw) q) f) k hfslen
  refine ⟨res, hok, ?_⟩
  intro r hr
  obtain ⟨i, hitop, -, hscore⟩ := hmem r hr
  have hilt : i < (maskScores df (searchScores (normalize_matrix raw) q) f).length :=
    mem_topIndices_lt _ k hitop
  have hiscores : i < (searchScores (normalize_matrix raw) q).length := by omega
  have hgt : -1 < (maskScores df (searchScores (normalize_matrix raw) q) f).getD i 0 := by
    have hj : i ∈ (searchOrder (maskScores df (searchScores (normalize_matrix raw) q) f)).take k :=
      hitop
    refine take_pos_of_count _ k ?_ ?_ hj
    · intro i2 hi2
      exact (maskScores_getD_in_Icc df raw q f hdim hlen i2).1
    · have hiff : ∀ i2 ∈ List.range
          (maskScores df (searchScores (normalize_matrix raw) q) f).length,
          (decide (-1 < (maskScores df (searchScores (normalize_matrix raw) q) f).getD i2 0)
              = true ↔ decide ((df.getD i2 default).score = f) = true) := by
        intro i2 hi2
        rw [List.mem_range] at hi2
        have hi2s : i2 < (searchScores (normalize_matrix raw) q).length := by omega
        rw [maskScores_getD df _ f i2 hdf hi2s]
        by_cases hm : (df.getD i2 default).score = f
        · rw [if_pos hm]
          have hb := searchScores_bounds raw q hdim i2 (by omega)
          simp only [decide_eq_true_eq]
          exact ⟨fun _ => hm, fun _ => hb.1⟩
        · rw [if_neg hm]
          simp only [decide_eq_true_eq]
          exact ⟨fun h => absurd h (by norm_num), fun h => absurd h hm⟩
      rw [List.countP_congr hiff, hfslen, countP_range_getD]
      exact hk
  rw [maskScores_getD df _ f i hdf hiscores] at hgt
  by_cases hm : (df.getD i default).score = f
  · rw [hscore]
    exact hm
  · rw [if_neg hm] at hgt
    norm_num at hgt

/-! ### Concrete evaluation helpers -/

theorem dot_pair (a b x y : ℝ) : dot [a, b] [x, y] = a * x + b * y := by
  simp [dot]

theorem sumSq_pair (a b : ℝ) : sumSq [a, b] = a * a + b * b := dot_pair a b a b

theorem norm_pair (a b : ℝ) : np_linalg_norm [a, b] = Real.sqrt (a * a + b * b) := by
  rw [np_linalg_norm, sumSq_pair]

theorem norm_10 : np_linalg_norm [(1 : ℝ), 0] = 1 := by
  rw [norm_pair, show (1 : ℝ) * 1 + 0 * 0 = 1 by norm_num, Real.sqrt_one]

theorem norm_01 : np_linalg_norm [(0 : ℝ), 1] = 1 := by
  rw [norm_pair, show (0 : ℝ) * 0 + 1 * 1 = 1 by norm_num, Real.sqrt_one]

theorem norm_00 : np_linalg_norm [(0 : ℝ), 0] = 0 := by
  rw [norm_pair, show (0 : ℝ) * 0 + 0 * 0 = 0 by norm_num, Real.sqrt_zero]

theorem l2n_10 : l2normalize [(1 : ℝ), 0] = [1 / (1 + eps), 0] := by
  rw [l2normalize, norm_10]
  simp

theorem l2n_01 : l2normalize [(0 : ℝ), 1] = [0, 1 / (1 + eps)] := by
  rw [l2normalize, norm_01]
  simp

theorem l2n_00 : l2normalize [(0 : ℝ), 0] = [0, 0] := by
  rw [l2normalize, norm_00]
  simp

theorem one_add_eps_pos : (0 : ℝ) < 1 + eps := by norm_num [eps]

theorem cEps_pos : (0 : ℝ) < 1 / (1 + eps) := div_pos one_pos one_add_eps_pos

theorem nmA : normalize_matrix [[(1 : ℝ), 0], [0, 1]]
    = [[1 / (1 + eps), 0], [0, 1 / (1 + eps)]] := by
  rw [normalize_matrix]
  simp [l2n_10, l2n_01]

theorem nmT : normalize_matrix [[(1 : ℝ), 0], [1, 0]]
    = [[1 / (1 + eps), 0], [1 / (1 + eps), 0]] := by
  rw [normalize_matrix]
  simp [l2n_10]

theorem nmZ : normalize_matrix [[(0 : ℝ), 0], [0, 1]]
    = [[0, 0], [0, 1 / (1 + eps)]] := by
  rw [normalize_matrix]
  simp [l2n_00, l2n_01]

theorem scoresA : searchScores [[1 / (1 + eps), 0], [0, 1 / (1 + eps)]] [(1 : ℝ), 0]
    = [(1 / (1 + eps)) * (1 / (1 + eps)), 0] := by
  rw [searchScores]
  simp [l2n_10, dot_pair]

theorem scoresT : searchScores [[1 / (1 + eps), 0], [1 / (1 + eps), 0]] [(1 : ℝ), 0]
    = [(1 / (1 + eps)) * (1 / (1 + eps)), (1 / (1 + eps)) * (1 / (1 + eps))] := by
  rw [searchScores]
  simp [l2n_10, dot_pair]

theorem scoresZ : searchScores [[(0 : ℝ), 0], [0, 1 / (1 + eps)]] [(0 : ℝ), 0] = [0, 0] := by
  rw [searchScores]
  simp [l2n_00, dot_pair]

theorem np_argsort_pair_pos (s : List ℝ) (h : s.length = 2) (hkey : keyLe s 0 1) :
    np_argsort s = [0, 1] := by
  rw [np_argsort, h, show List.range 2 = [0, 1] from rfl]
  simp only [List.insertionSort, List.orderedInsert]
  rw [if_pos hkey]

theorem np_argsort_pair_neg (s : List ℝ) (h : s.length = 2) (hkey : ¬ keyLe s 0 1) :
    np_argsort s = [1, 0] := by
  rw [np_argsort, h, show List.range 2 = [0, 1] from rfl]
  simp only [List.insertionSort, List.orderedInsert]
  rw [if_neg hkey]

theorem searchOrder_pair_pos (s : List ℝ) (h : s.length = 2) (hkey : keyLe s 0 1) :
    searchOrder s = [1, 0] := by
  rw [searchOrder, np_argsort_pair_pos s h hkey]
  rfl

theorem searchOrder_pair_neg (s : List ℝ) (h : s.length = 2) (hkey : ¬ keyLe s 0 1) :
    searchOrder s = [0, 1] := by
  rw [searchOrder, np_argsort_pair_neg s h hkey]
  rfl

theorem keyLe_pair_eq (a : ℝ) : keyLe [a, a] 0 1 :=
  Or.inr ⟨by simp, by omega⟩

theorem keyLe_pair_pos_neg (x : ℝ) (hx : 0 < x) : ¬ keyLe [x, (-1 : ℝ)] 0 1 := by
  intro h
  rcases h with h | ⟨h, -⟩ <;>
    simp only [List.getD_cons_zero, List.getD_cons_succ] at h <;> linarith

theorem keyLe_pair_pos_zero (x : ℝ) (hx : 0 < x) : ¬ keyLe [x, (0 : ℝ)] 0 1 := by
  intro h
  rcases h with h | ⟨h, -⟩ <;>
    simp only [List.getD_cons_zero, List.getD_cons_succ] at h <;> linarith

theorem searchOrder_zero_pair : searchOrder [(0 : ℝ), 0] = [1, 0] :=
  searchOrder_pair_pos _ (by simp) (keyLe_pair_eq 0)

/-- Full evaluation of the filtered query on the two-record index with
vectors `[1,0]`, `[0,1]`, query `[1,0]`, `k = 2`, filter `5`: the non-matching
record `⟨1, "b"⟩` is returned at masked similarity −1. -/
theorem evalA : semantic_search [⟨5, "a"⟩, ⟨1, "b"⟩]
    (normalize_matrix [[(1 : ℝ), 0], [0, 1]]) [1, 0] 2 (some 5)
    = .ok [⟨5, (1 / (1 + eps)) * (1 / (1 + eps)), "a"⟩, ⟨1, -1, "b"⟩] := by
  rw [nmA, semantic_search_some _ _ _ _ _ (by simp) (by simp), scoresA]
  rw [show maskScores [⟨5, "a"⟩, ⟨1, "b"⟩] [(1 / (1 + eps)) * (1 / (1 + eps)), 0] 5
      = [(1 / (1 + eps)) * (1 / (1 + eps)), -1] from by simp [maskScores]]
  have htop : topIndices [(1 / (1 + eps)) * (1 / (1 + eps)), (-1 : ℝ)] 2 = [0, 1] := by
    rw [topIndices, searchOrder_pair_neg _ (by simp)
      (keyLe_pair_pos_neg _ (mul_pos cEps_pos cEps_pos))]
    rfl
  rw [finalize_ok _ _ _ (by rw [htop]; decide), htop]
  simp

/-- Full evaluation of the tie configuration: two identical vectors `[1,0]`,
query `[1,0]`, `k = 2`, no filter: equal scores, later record first. -/
theorem evalT : semantic_search [⟨5, "a"⟩, ⟨5, "b"⟩]
    (normalize_matrix [[(1 : ℝ), 0], [1, 0]]) [1, 0] 2 none
    = .ok [⟨5, (1 / (1 + eps)) * (1 / (1 + eps)), "b"⟩,
           ⟨5, (1 / (1 + eps)) * (1 / (1 + eps)), "a"⟩] := by
  rw [nmT, semantic_search_none _ _ _ _ (by simp), scoresT]
  have htop : topIndices [(1 / (1 + eps)) * (1 / (1 + eps)),
      (1 / (1 + eps)) * (1 / (1 + eps))] 2 = [1, 0] := by
    rw [topIndices, searchOrder_pair_pos _ (by simp) (keyLe_pair_eq _)]
    rfl
  rw [finalize_ok _ _ _ (by rw [htop]; decide), htop]
  simp

/-- Full evaluation of the zero-vector self-query: record 0's vector is
`[0,0]`, querying with it ties all scores at 0 and returns record 1. -/
theorem evalZ : semantic_search [⟨5, "a"⟩, ⟨5, "b"⟩]
    (normalize_matrix [[(0 : ℝ), 0], [0, 1]]) [0, 0] 1 none
    = .ok [⟨5, 0, "b"⟩] := by
  rw [nmZ, semantic_search_none _ _ _ _ (by simp), scoresZ]
  have htop : topIndices [(0 : ℝ), 0] 1 = [1] := by
    rw [topIndices, searchOrder_zero_pair]
    rfl
  rw [finalize_ok _ _ _ (by rw [htop]; decide), htop]
  simp

/-- Self-similarity of an epsilon-normalized vector, in closed form. -/
theorem self_score (v : List ℝ) :
    dot (l2normalize v) (l2normalize v) = sumSq v / (np_linalg_norm v + eps) ^ 2 := by
  rw [show dot (l2normalize v) (l2normalize v) = sumSq (l2normalize v) from rfl,
    l2normalize, sumSq_map_div]

/-- A vector of norm at least 1e-3 has self-similarity within 1e-5 of 1. -/
theorem self_score_close_to_one (v : List ℝ) (hv : 1e-3 ≤ np_linalg_norm v) :
    1 - 1e-5 < sumSq v / (np_linalg_norm v + eps) ^ 2 ∧
      sumSq v / (np_linalg_norm v + eps) ^ 2 ≤ 1 := by
  have hsq : sumSq v = np_linalg_norm v ^ 2 := (Real.sq_sqrt (sumSq_nonneg v)).symm
  have hdpos : (0 : ℝ) < np_linalg_norm v + eps := denom_pos v
  have heps : eps = 1e-10 := rfl
  have hd0 : (0 : ℝ) ≤ np_linalg_norm v := np_linalg_norm_nonneg v
  constructor
  · rw [hsq, lt_div_iff (by positivity)]
    have h1 : (1e-3 : ℝ) * np_linalg_norm v ≤ np_linalg_norm v * np_linalg_norm v :=
      mul_le_mul_of_nonneg_right hv hd0
    rw [heps]
    nlinarith [hv, h1]
  · rw [hsq, div_le_one (by positivity)]
    nlinarith [hd0, eps_pos]

/-! ### Remaining claim theorems -/

/-- C1 counterexample: on the index with records `⟨5,"a"⟩, ⟨1,"b"⟩` and
vectors `[1,0]`, `[0,1]`, the query `[1,0]` with `k = 2` and filter `5`
returns the record with Score 1 — a record failing the filter predicate —
in second position (at the masked similarity −1.0): the mask does not keep
non-matching records out of the output when fewer than `k` records match. -/
theorem filter_returns_nonmatching_record :
    semantic_search [⟨5, "a"⟩, ⟨1, "b"⟩]
        (normalize_matrix [[(1 : ℝ), 0], [0, 1]]) [1, 0] 2 (some 5)
      = .ok [⟨5, (1 / (1 + eps)) * (1 / (1 + eps)), "a"⟩, ⟨1, -1, "b"⟩] ∧
      (1 : Int) ≠ 5 :=
  ⟨evalA, by decide⟩

/-- Closed witness for the corrected C1, at the same index with `k = 1`
(one record matches the filter, and it is the one returned). -/
theorem filter_satisfied_when_enough_matches_witness :
    ((∀ row ∈ [[(1 : ℝ), 0], [0, 1]], row.length = [(1 : ℝ), 0].length) ∧
        ([⟨5, "a"⟩, ⟨1, "b"⟩] : List Record).length = [[(1 : ℝ), 0], [0, 1]].length ∧
        1 ≤ List.countP (fun r : Record => decide (r.score = 5)) ([⟨5, "a"⟩, ⟨1, "b"⟩] : List Record)) ∧
      ∃ res, semantic_search [⟨5, "a"⟩, ⟨1, "b"⟩]
          (normalize_matrix [[(1 : ℝ), 0], [0, 1]]) [1, 0] 1 (some 5) = .ok res ∧
        ∀ r ∈ res, r.score = 5 :=
  ⟨⟨by simp, by simp, by decide⟩,
    filter_satisfied_when_enough_matches [⟨5, "a"⟩, ⟨1, "b"⟩] [[(1 : ℝ), 0], [0, 1]]
      [1, 0] 1 5 (by simp) (by simp) (by decide)⟩

/-- C2 counterexample: two records with identical vectors tie on the score,
and the query returns the later-inserted record `"b"` before the
earlier-inserted `"a"` — insertion-order tie-breaking does not hold. -/
theorem tie_broken_against_insertion_order :
    semantic_search [⟨5, "a"⟩, ⟨5, "b"⟩]
        (normalize_matrix [[(1 : ℝ), 0], [1, 0]]) [1, 0] 2 none
      = .ok [⟨5, (1 / (1 + eps)) * (1 / (1 + eps)), "b"⟩,
             ⟨5, (1 / (1 + eps)) * (1 / (1 + eps)), "a"⟩] ∧
      "b" ≠ "a" :=
  ⟨evalT, by decide⟩

/-- C2 (corrected): the selection is deterministic and orders all scores
descending, but ties between equal scores are broken by REVERSE insertion
order — the source reverses an ascending (stable) argsort, so among equal
scores the later-inserted record comes first: whenever `i < j` have equal
scores, `j` occurs strictly before `i` in the traversal order. -/
theorem ties_in_reverse_insertion_order (s : List ℝ) (i j a b : Nat)
    (hij : i < j) (hj : j < s.length) (heq : s.getD i 0 = s.getD j 0)
    (ha : a < (searchOrder s).length) (hb : b < (searchOrder s).length)
    (hai : (searchOrder s).getD a 0 = i) (hbj : (searchOrder s).getD b 0 = j) :
    b < a := by
  rw [List.getD_eq_getElem _ _ ha] at hai
  rw [List.getD_eq_getElem _ _ hb] at hbj
  rcases Nat.lt_trichotomy a b with hab | hab | hab
  · exfalso
    have hrel := (List.pairwise_iff_get.mp (searchOrder_pairwise s)) ⟨a, ha⟩ ⟨b, hb⟩ hab
    simp only [List.get_eq_getElem] at hrel
    rw [hai, hbj] at hrel
    rcases hrel with h | ⟨-, hle⟩
    · rw [heq] at h
      exact lt_irrefl _ h
    · omega
  · exfalso
    subst hab
    have hijeq : i = j := hai.symm.trans hbj
    omega
  · exact hab

/-- Closed witness for the corrected C2: for the tied scores `[0, 0]`, the
traversal order is `[1, 0]`, so index 1 (position 0) precedes index 0
(position 1). -/
theorem ties_in_reverse_insertion_order_witness :
    ((0 : Nat) < 1 ∧ 1 < ([(0 : ℝ), 0]).length ∧
        ([(0 : ℝ), 0]).getD 0 0 = ([(0 : ℝ), 0]).getD 1 0 ∧
        1 < (searchOrder [(0 : ℝ), 0]).length ∧ 0 < (searchOrder [(0 : ℝ), 0]).length ∧
        (searchOrder [(0 : ℝ), 0]).getD 1 0 = 0 ∧ (searchOrder [(0 : ℝ), 0]).getD 0 0 = 1) ∧
      (0 : Nat) < 1 :=
  ⟨⟨by omega, by simp, by simp, by rw [searchOrder_zero_pair]; simp,
      by rw [searchOrder_zero_pair]; simp,
      by rw [searchOrder_zero_pair]; rfl, by rw [searchOrder_zero_pair]; rfl⟩,
    ties_in_reverse_insertion_order [(0 : ℝ), 0] 0 1 1 0 (by omega) (by simp) (by simp)
      (by rw [searchOrder_zero_pair]; simp) (by rw [searchOrder_zero_pair]; simp)
      (by rw [searchOrder_zero_pair]; rfl) (by rw [searchOrder_zero_pair]; rfl)⟩

/-- C4 counterexample: with the filter `5` supplied and only one matching
record, `k = 2` still returns 2 rows, not `min(k, count matching filter) = 1`. -/
theorem length_with_filter_not_match_count :
    ((semantic_search [⟨5, "a"⟩, ⟨1, "b"⟩]
          (normalize_matrix [[(1 : ℝ), 0], [0, 1]]) [1, 0] 2 (some 5)).toOption.getD []).length
        = 2 ∧
      List.countP (fun r : Record => decide (r.score = 5)) ([⟨5, "a"⟩, ⟨1, "b"⟩] : List Record) = 1 ∧
      (2 : Nat) ≠ min 2 1 := by
  refine ⟨?_, by decide, by decide⟩
  rw [evalA]
  rfl

/-- Closed witness for C5 on a concrete two-record index. -/
theorem scores_in_range_and_sorted_witness :
    ((∀ row ∈ [[(1 : ℝ), 0], [0, 1]], row.length = [(1 : ℝ), 0].length) ∧
        ([⟨5, "a"⟩, ⟨1, "b"⟩] : List Record).length = [[(1 : ℝ), 0], [0, 1]].length) ∧
      ∃ res, semantic_search [⟨5, "a"⟩, ⟨1, "b"⟩]
          (normalize_matrix [[(1 : ℝ), 0], [0, 1]]) [1, 0] 2 none = .ok res ∧
        (∀ r ∈ res, -1 ≤ r.similarity ∧ r.similarity ≤ 1) ∧
        (res.map (fun r => r.similarity)).Pairwise (fun a b => b ≤ a) :=
  ⟨⟨by simp, by simp⟩,
    scores_in_range_and_sorted [⟨5, "a"⟩, ⟨1, "b"⟩] [[(1 : ℝ), 0], [0, 1]] [1, 0] 2 none
      (by simp) (by simp)⟩

/-- C6 counterexample: record 0 has the zero vector `[0,0]`; querying with
record 0's own vector and `k = 1` returns record 1 (`"b"`), not record 0,
and the top score is 0, not within 1e-5 of 1. -/
theorem self_query_not_top_result :
    semantic_search [⟨5, "a"⟩, ⟨5, "b"⟩]
        (normalize_matrix [[(0 : ℝ), 0], [0, 1]]) [0, 0] 1 none
      = .ok [⟨5, 0, "b"⟩] ∧ (0 : ℝ) < 1 - 1e-5 ∧ "b" ≠ "a" :=
  ⟨evalZ, by norm_num, by decide⟩

/-- C6 (corrected): querying a built index with record `t`'s own raw vector
and `k = 1` returns record `t` as the unique top result with score within
1e-5 of 1, provided the vector's norm is not numerically tiny (≥ 1e-3, so
the epsilon guard is negligible) and record `t`'s score is strictly maximal
(no duplicate or zero vectors tie with it — ties go to the later index). -/
theorem self_query_returns_strict_max (df : List Record) (raw : List (List ℝ)) (t : Nat)
    (hdim : ∀ row ∈ raw, row.length = (raw.getD t []).length)
    (hlen : df.length = raw.length) (ht : t < raw.length)
    (hnorm : 1e-3 ≤ np_linalg_norm (raw.getD t []))
    (hmax : ∀ j, j < raw.length → j ≠ t →
      (searchScores (normalize_matrix raw) (raw.getD t [])).getD j 0 <
        (searchScores (normalize_matrix raw) (raw.getD t [])).getD t 0) :
    semantic_search df (normalize_matrix raw) (raw.getD t []) 1 none =
      .ok [⟨(df.getD t default).score,
            (searchScores (normalize_matrix raw) (raw.getD t [])).getD t 0,
            (df.getD t default).content⟩] ∧
      1 - 1e-5 < (searchScores (normalize_matrix raw) (raw.getD t [])).getD t 0 ∧
      (searchScores (normalize_matrix raw) (raw.getD t [])).getD t 0 ≤ 1 := by
  have hdim' : ∀ row ∈ normalize_matrix raw, row.length = (raw.getD t []).length := by
    intro row hrow
    rw [normalize_matrix, List.mem_map] at hrow
    obtain ⟨r0, hr0, rfl⟩ := hrow
    rw [length_l2normalize]
    exact hdim r0 hr0
  have hfslen : (searchScores (normalize_matrix raw) (raw.getD t [])).length = raw.length := by
    rw [searchScores_length, length_normalize_matrix]
  have htval : (searchScores (normalize_matrix raw) (raw.getD t [])).getD t 0
      = sumSq (raw.getD t []) / (np_linalg_norm (raw.getD t []) + eps) ^ 2 := by
    rw [searchScores_getD _ _ t (by rw [length_normalize_matrix]; exact ht),
      normalize_matrix_getD raw t ht, self_score]
  have hbounds := self_score_close_to_one (raw.getD t []) hnorm
  refine ⟨?_, by rw [htval]; exact hbounds.1, by rw [htval]; exact hbounds.2⟩
  -- selection: the order starts with t
  have hne : searchOrder (searchScores (normalize_matrix raw) (raw.getD t [])) ≠ [] := by
    intro hnil
    have h1 := searchOrder_length (searchScores (normalize_matrix raw) (raw.getD t []))
    rw [hnil, hfslen] at h1
    simp at h1
    omega
  obtain ⟨h0, tl, hcons⟩ := List.exists_cons_of_ne_nil hne
  have hh0lt : h0 < raw.length := by
    have : h0 ∈ searchOrder (searchScores (normalize_matrix raw) (raw.getD t [])) := by
      rw [hcons]
      exact List.mem_cons_self h0 tl
    rw [mem_searchOrder_iff, hfslen] at this
    exact this
  have hteq : h0 = t := by
    by_contra hne2
    have htmem : t ∈ searchOrder (searchScores (normalize_matrix raw) (raw.getD t [])) := by
      rw [mem_searchOrder_iff, hfslen]
      exact ht
    rw [hcons] at htmem
    rcases List.mem_cons.mp htmem with h | h
    · exact hne2 h.symm
    · have hpw := searchOrder_pairwise (searchScores (normalize_matrix raw) (raw.getD t []))
      rw [hcons] at hpw
      have hrel := List.rel_of_pairwise_cons hpw h
      have hle := keyLe_le hrel
      have hlt := hmax h0 hh0lt hne2
      linarith
  have htop : topIndices (searchScores (normalize_matrix raw) (raw.getD t [])) 1 = [t] := by
    rw [topIndices, hcons, hteq]
    rfl
  rw [semantic_search_none df _ _ 1 hdim']
  rw [finalize_ok _ _ _ (by rw [htop]; intro i hi; simp at hi; omega), htop]
  rfl

/-- Closed witness for the corrected C6: on the index with vectors `[1,0]`,
`[0,1]`, record 0's self-query returns record 0 with score within 1e-5 of 1. -/
theorem self_query_returns_strict_max_witness :
    ((∀ row ∈ [[(1 : ℝ), 0], [0, 1]], row.length
          = ([[(1 : ℝ), 0], [0, 1]].getD 0 []).length) ∧
        ([⟨5, "a"⟩, ⟨1, "b"⟩] : List Record).length = [[(1 : ℝ), 0], [0, 1]].length ∧
        0 < [[(1 : ℝ), 0], [0, 1]].length ∧
        1e-3 ≤ np_linalg_norm ([[(1 : ℝ), 0], [0, 1]].getD 0 []) ∧
        (∀ j, j < [[(1 : ℝ), 0], [0, 1]].length → j ≠ 0 →
          (searchScores (normalize_matrix [[(1 : ℝ), 0], [0, 1]])
              ([[(1 : ℝ), 0], [0, 1]].getD 0 [])).getD j 0 <
            (searchScores (normalize_matrix [[(1 : ℝ), 0], [0, 1]])
                ([[(1 : ℝ), 0], [0, 1]].getD 0 [])).getD 0 0)) ∧
      (semantic_search [⟨5, "a"⟩, ⟨1, "b"⟩] (normalize_matrix [[(1 : ℝ), 0], [0, 1]])
          ([[(1 : ℝ), 0], [0, 1]].getD 0 []) 1 none =
        .ok [⟨(([⟨5, "a"⟩, ⟨1, "b"⟩] : List Record).getD 0 default).score,
              (searchScores (normalize_matrix [[(1 : ℝ), 0], [0, 1]])
                  ([[(1 : ℝ), 0], [0, 1]].getD 0 [])).getD 0 0,
              (([⟨5, "a"⟩, ⟨1, "b"⟩] : List Record).getD 0 default).content⟩] ∧
        1 - 1e-5 < (searchScores (normalize_matrix [[(1 : ℝ), 0], [0, 1]])
            ([[(1 : ℝ), 0], [0, 1]].getD 0 [])).getD 0 0 ∧
        (searchScores (normalize_matrix [[(1 : ℝ), 0], [0, 1]])
            ([[(1 : ℝ), 0], [0, 1]].getD 0 [])).getD 0 0 ≤ 1) := by
  have hq : ([[(1 : ℝ), 0], [0, 1]].getD 0 []) = [(1 : ℝ), 0] := rfl
  have hmax : ∀ j, j < [[(1 : ℝ), 0], [0, 1]].length → j ≠ 0 →
      (searchScores (normalize_matrix [[(1 : ℝ), 0], [0, 1]])
          ([[(1 : ℝ), 0], [0, 1]].getD 0 [])).getD j 0 <
        (searchScores (normalize_matrix [[(1 : ℝ), 0], [0, 1]])
            ([[(1 : ℝ), 0], [0, 1]].getD 0 [])).getD 0 0 := by
    intro j hj hj0
    rw [hq, nmA, scoresA]
    have hj2 : j < 2 := by simpa using hj
    interval_cases j
    · omega
    · simp only [List.getD_cons_zero, List.getD_cons_succ]
      exact mul_pos cEps_pos cEps_pos
  exact ⟨⟨by simp, by simp, by simp, by rw [hq, norm_10]; norm_num, hmax⟩,
    self_query_returns_strict_max [⟨5, "a"⟩, ⟨1, "b"⟩] [[(1 : ℝ), 0], [0, 1]] 0
      (by simp) (by simp) (by simp) (by rw [hq, norm_10]; norm_num) hmax⟩

end SemanticSearch
